import Mathlib

set_option maxRecDepth 8000

/-!
Shallow embedding of the natural-language-to-asset matching engine
(`AssetMapper` in `src/services/assetMapper.ts`): tokenization, term
extraction, per-entry scoring, ranking, and avatar-configuration assembly,
together with the embedded sample catalog `SAMPLE_ASSETS`.
JS numbers only ever hold sums of the non-negative weights 10/5/3/2/1 here,
so scores are modelled as `Nat`.
-/

/-- Characters matched by the JS regex class `\s` (used by the tokenizer's
`split(/\s+/)`). -/
def isJsWs (c : Char) : Bool :=
  c == ' ' || c == '\t' || c == '\n' || c == '\r' || c == '\x0b' || c == '\x0c' ||
  c == ' ' || c == ' ' || c == ' ' || c == ' ' || c == ' ' ||
  c == ' ' || c == ' ' || c == ' ' || c == ' ' || c == ' ' ||
  c == ' ' || c == ' ' || c == ' ' || c == ' ' || c == ' ' ||
  c == ' ' || c == ' ' || c == '　' || c == '﻿'

/-- Worker for `jsSplitWs`: JS `String.prototype.split(/\s+/)` returns the
segments between maximal whitespace runs, keeping the (possibly empty)
segments at both ends. `inRun` records that the previous character belonged
to a whitespace run; `acc` is the current segment, reversed. -/
def jsSplitAux (inRun : Bool) (acc : List Char) : List Char → List (List Char)
  | [] => [acc.reverse]
  | c :: cs =>
    if isJsWs c then
      if inRun then jsSplitAux true acc cs
      else acc.reverse :: jsSplitAux true [] cs
    else jsSplitAux false (c :: acc) cs

/-- JS `s.split(/\s+/)`. -/
def jsSplitWs (s : String) : List String :=
  (jsSplitAux false [] s.data).map List.asString

/-- Does `needle` occur as a contiguous sublist of the second argument? -/
def hasSub (needle : List Char) : List Char → Bool
  | [] => needle.isEmpty
  | c :: rest => needle.isPrefixOf (c :: rest) || hasSub needle rest

/-- JS `hay.includes(needle)` (substring test). -/
def strIncludes (hay needle : String) : Bool :=
  hasSub needle.data hay.data

/-- JS `String.prototype.toLowerCase`, restricted to the ASCII fold (all
vocabulary and catalog text is ASCII); structural so that it evaluates. -/
def jsToLower (s : String) : String :=
  (s.data.map Char.toLower).asString

/-- The `colors` vocabulary of `extractSearchTerms`. -/
def colorsVocab : List String :=
  ["black", "white", "red", "blue", "green", "yellow", "orange", "purple",
   "pink", "brown", "gray", "grey", "navy", "beige", "tan", "gold", "silver"]

/-- The `materials` vocabulary of `extractSearchTerms`. -/
def materialsVocab : List String :=
  ["leather", "denim", "cotton", "silk", "wool", "polyester", "velvet",
   "suede", "canvas", "nylon", "satin", "lace", "metal", "plastic"]

/-- The `clothingTypes` vocabulary of `extractSearchTerms`. -/
def clothingTypesVocab : List String :=
  ["jacket", "coat", "shirt", "tshirt", "t-shirt", "pants", "jeans",
   "shorts", "dress", "skirt", "suit", "hoodie", "sweater", "vest",
   "blazer", "hat", "cap", "glasses", "sunglasses", "shoes", "boots",
   "sneakers", "hair", "beard", "mustache", "top", "bottom", "outfit"]

/-- The `styles` vocabulary of `extractSearchTerms`. -/
def stylesVocab : List String :=
  ["casual", "formal", "business", "sporty", "athletic", "vintage",
   "modern", "classic", "punk", "gothic", "hipster", "preppy", "street",
   "elegant", "simple", "fancy", "retro", "trendy"]

/-- The `genderTerms` vocabulary of `extractSearchTerms`. -/
def genderTermsVocab : List String :=
  ["male", "female", "man", "woman", "men", "women", "boy", "girl",
   "masculine", "feminine", "unisex", "neutral"]

/-- The record returned by `extractSearchTerms`. -/
structure SearchTerms where
  colors : List String
  materials : List String
  types : List String
  styles : List String
  gender : List String
  keywords : List String
deriving DecidableEq, Repr

/-- Model of `AssetMapper.extractSearchTerms`: lower-case, split on whitespace, and
bucket each token by exact membership in the five vocabularies; the raw
token list is kept verbatim as `keywords`. -/
def extractSearchTerms (description : String) : SearchTerms :=
  let lowerDesc := jsToLower description
  let words := jsSplitWs lowerDesc
  { colors := words.filter (fun w => colorsVocab.contains w)
    materials := words.filter (fun w => materialsVocab.contains w)
    types := words.filter (fun w => clothingTypesVocab.contains w)
    styles := words.filter (fun w => stylesVocab.contains w)
    gender := words.filter (fun w => genderTermsVocab.contains w)
    keywords := words }

/-- One catalog entry of `SAMPLE_ASSETS`. -/
structure Asset where
  id : String
  name : String
  type : String
  gender : List String
  tags : List String
deriving DecidableEq, Repr

/-- The embedded sample catalog, in source (insertion) order. -/
def SAMPLE_ASSETS : List Asset :=
  [{ id := "outfit_leather_jacket_black", name := "Black Leather Jacket",
     type := "outfit", gender := ["male", "female"],
     tags := ["jacket", "leather", "black", "casual", "cool"] },
   { id := "outfit_blue_jeans", name := "Blue Denim Jeans",
     type := "bottom", gender := ["male", "female"],
     tags := ["jeans", "denim", "blue", "casual", "pants"] },
   { id := "outfit_white_tshirt", name := "White T-Shirt",
     type := "top", gender := ["male", "female"],
     tags := ["shirt", "tshirt", "white", "casual", "basic"] },
   { id := "outfit_hoodie_gray", name := "Gray Hoodie",
     type := "top", gender := ["male", "female"],
     tags := ["hoodie", "gray", "casual", "comfortable", "sweater"] },
   { id := "outfit_business_suit", name := "Business Suit",
     type := "outfit", gender := ["male", "female"],
     tags := ["suit", "business", "formal", "professional", "jacket"] },
   { id := "glasses_sunglasses_black", name := "Black Sunglasses",
     type := "glasses", gender := ["male", "female"],
     tags := ["sunglasses", "black", "cool", "glasses", "eyewear"] },
   { id := "glasses_reading", name := "Reading Glasses",
     type := "glasses", gender := ["male", "female"],
     tags := ["glasses", "reading", "eyewear", "clear"] },
   { id := "hair_short_black", name := "Short Black Hair",
     type := "hair", gender := ["male"],
     tags := ["hair", "short", "black", "neat"] },
   { id := "hair_long_brown", name := "Long Brown Hair",
     type := "hair", gender := ["female"],
     tags := ["hair", "long", "brown", "flowing"] },
   { id := "hair_beard_full", name := "Full Beard",
     type := "facialHair", gender := ["male"],
     tags := ["beard", "facial", "hair", "full", "masculine"] }]

/-- Sum of weight `w` over the tokens satisfying `hit` (the `forEach`
accumulation pattern of `calculateMatchScore`). -/
def addHits (hit : String → Bool) (w : Nat) : List String → Nat
  | [] => 0
  | t :: ts => (if hit t then w else 0) + addHits hit w ts

/-- Hit test of the garment-type pass: token in lower-cased name, equal to
the entry's `type`, or exactly one of its tags. -/
def typeHit (a : Asset) (t : String) : Bool :=
  strIncludes (jsToLower a.name) t || a.type == t || a.tags.contains t

/-- Hit test of the color/material/style passes: token in lower-cased name
or exactly one of the tags. -/
def nameTagHit (a : Asset) (t : String) : Bool :=
  strIncludes (jsToLower a.name) t || a.tags.contains t

/-- Hit test of the generic-keyword pass: token in lower-cased name or a
substring of some tag. -/
def keywordHit (a : Asset) (k : String) : Bool :=
  strIncludes (jsToLower a.name) k || a.tags.any (fun tag => strIncludes tag k)

/-- The `+10`-per-token garment-type pass. -/
def typeScore (a : Asset) (types : List String) : Nat :=
  addHits (typeHit a) 10 types

/-- The `+5`-per-token color pass. -/
def colorScore (a : Asset) (colors : List String) : Nat :=
  addHits (nameTagHit a) 5 colors

/-- The `+5`-per-token material pass. -/
def materialScore (a : Asset) (materials : List String) : Nat :=
  addHits (nameTagHit a) 5 materials

/-- The `+3`-per-token style pass. -/
def styleScore (a : Asset) (styles : List String) : Nat :=
  addHits (nameTagHit a) 3 styles

/-- JS `g.replace(/s$/, '')`: drop one trailing `'s'`. -/
def stripPluralS (g : String) : String :=
  if g.data.getLast? == some 's' then (g.data.dropLast).asString else g

/-- Does the (de-pluralized) gender token occur as a substring of one of the
entry's applicable-gender tags? -/
def genderHit (a : Asset) (g : String) : Bool :=
  a.gender.any (fun ag => strIncludes (jsToLower ag) (stripPluralS g))

/-- The gender pass: `+2` once when some extracted gender token hits.
(`asset.gender` is always a truthy array in the source, so the JS
truthiness guard never blocks.) -/
def genderScore (a : Asset) (gterms : List String) : Nat :=
  if 0 < gterms.length then (if gterms.any (genderHit a) then 2 else 0) else 0

/-- The `+1`-per-token generic-keyword pass, restricted to tokens longer
than 3 characters. -/
def keywordScore (a : Asset) (ks : List String) : Nat :=
  addHits (fun k => decide (3 < k.length) && keywordHit a k) 1 ks

/-- Model of `AssetMapper.calculateMatchScore`: the additive total of all six passes. -/
def calculateMatchScore (a : Asset) (t : SearchTerms) : Nat :=
  typeScore a t.types + colorScore a t.colors + materialScore a t.materials +
    styleScore a t.styles + genderScore a t.gender + keywordScore a t.keywords

/-- One scored result of `findAssets`. -/
structure AssetMatch where
  id : String
  name : String
  type : String
  score : Nat
  gender : List String
deriving DecidableEq, Repr

/-- The pre-sort match list of `findAssets`: catalog entries with positive
score, in catalog (insertion) order. -/
def scoredMatches (catalog : List Asset) (d : String) : List AssetMatch :=
  let terms := extractSearchTerms d
  catalog.filterMap fun a =>
    let s := calculateMatchScore a terms
    if 0 < s then
      some { id := a.id, name := a.name, type := a.type, score := s, gender := a.gender }
    else none

/-- Stable insertion of one match into a list sorted by descending score:
the new element goes before the first element whose score it reaches. -/
def insertDesc (m : AssetMatch) : List AssetMatch → List AssetMatch
  | [] => [m]
  | n :: ns => if n.score ≤ m.score then m :: n :: ns else n :: insertDesc m ns

/-- Stable sort by descending score; this is the unique output of any stable
sort under the comparator `(a, b) => b.score - a.score` used in the source. -/
def sortDesc : List AssetMatch → List AssetMatch
  | [] => []
  | m :: ms => insertDesc m (sortDesc ms)

/-- Model of `AssetMapper.findAssets`: score the catalog, keep positive scores, sort
by score descending (stable), truncate to 10. -/
def findAssets (d : String) : List AssetMatch :=
  (sortDesc (scoredMatches SAMPLE_ASSETS d)).take 10

/-- JS `\w` (word character): ASCII letter, digit or underscore. -/
def isWordChar (c : Char) : Bool :=
  c.isAlphanum || c == '_'

/-- Does `pat` start at the head of the text, with a word boundary right
after it (end of text or a non-word character)? -/
def matchHere : List Char → List Char → Bool
  | [], [] => true
  | [], c :: _ => !isWordChar c
  | _ :: _, [] => false
  | p :: ps, c :: cs => p == c && matchHere ps cs

/-- Does `pat` occur somewhere in the text with word boundaries on both
sides? `prev` records whether the preceding character is a word character. -/
def occursFrom (pat : List Char) : Bool → List Char → Bool
  | _, [] => false
  | prev, c :: cs => (!prev && matchHere pat (c :: cs)) || occursFrom pat (isWordChar c) cs

/-- Case-insensitive whole-word occurrence, modelling the JS regex test
`description.match(/\b(w)\b/i)` for an ASCII word `w`. -/
def wordOccurs (w : String) (s : String) : Bool :=
  occursFrom w.data false (jsToLower s).data

/-- The male alternation of `buildAvatarConfig`'s gender regex. -/
def maleRegexWords : List String := ["man", "male", "boy", "gentleman"]

/-- The female alternation of `buildAvatarConfig`'s gender regex. -/
def femaleRegexWords : List String := ["woman", "female", "girl", "lady"]

/-- The gender inference of `buildAvatarConfig`: male patterns first, then
female patterns, else neutral. -/
def inferredGender (d : String) : String :=
  if maleRegexWords.any (fun w => wordOccurs w d) then "male"
  else if femaleRegexWords.any (fun w => wordOccurs w d) then "female"
  else "neutral"

/-- First binding of a key in the `assetsByType` association list
(JS property read). -/
def lookupType : List (String × AssetMatch) → String → Option AssetMatch
  | [], _ => none
  | (k, v) :: rest, t => if k == t then some v else lookupType rest t

/-- JS property write on `assetsByType`: replace the value in place when the
key exists, append the binding otherwise. -/
def upsertMatch : List (String × AssetMatch) → String → AssetMatch → List (String × AssetMatch)
  | [], k, v => [(k, v)]
  | (k', v') :: rest, k, v =>
    if k' == k then (k', v) :: rest else (k', v') :: upsertMatch rest k v

/-- One step of `buildAvatarConfig`'s grouping loop: store the match under
its type unless a strictly better one is already stored. -/
def stepByType (acc : List (String × AssetMatch)) (m : AssetMatch) : List (String × AssetMatch) :=
  match lookupType acc m.type with
  | none => acc ++ [(m.type, m)]
  | some e => if e.score < m.score then upsertMatch acc m.type m else acc

/-- The `assetsByType` record of `buildAvatarConfig`, as an association list
in JS property-insertion order. -/
def assetsByType (ms : List AssetMatch) : List (String × AssetMatch) :=
  ms.foldl stepByType []

/-- The `typeMap` table of `mapTypeToConfigKey`. -/
def typeMap : List (String × String) :=
  [("hair", "hairStyle"), ("facialHair", "facialHairStyle"),
   ("eyebrows", "eyebrowStyle"), ("eyes", "eyeColor"),
   ("outfit", "outfit"), ("top", "outfit"), ("bottom", "outfit"),
   ("footwear", "footwear"), ("glasses", "glasses"), ("headwear", "headwear"),
   ("facewear", "facewear"), ("neckwear", "neckwear"), ("earrings", "earrings"),
   ("makeup", "makeup")]

/-- Model of `AssetMapper.mapTypeToConfigKey` (`typeMap[type] || null`; every table
value is a non-empty, truthy string). -/
def mapTypeToConfigKey (t : String) : Option String :=
  (typeMap.find? (fun p => p.1 == t)).map (fun p => p.2)

/-- First binding of a key in the `config` association list. -/
def lookupStr : List (String × String) → String → Option String
  | [], _ => none
  | (k, v) :: rest, t => if k == t then some v else lookupStr rest t

/-- JS property write on `config`: replace in place or append. -/
def upsertStr : List (String × String) → String → String → List (String × String)
  | [], k, v => [(k, v)]
  | (k', v') :: rest, k, v =>
    if k' == k then (k', v) :: rest else (k', v') :: upsertStr rest k v

/-- One step of `buildAvatarConfig`'s configuration loop: write the asset id
under the mapped key, dropping unmapped types. -/
def cfgStep (cfg : List (String × String)) (p : String × AssetMatch) : List (String × String) :=
  match mapTypeToConfigKey p.1 with
  | some k => upsertStr cfg k p.2.id
  | none => cfg

/-- The `config` record of `buildAvatarConfig`, as an association list in JS
property-insertion order. -/
def configOf (byType : List (String × AssetMatch)) : List (String × String) :=
  byType.foldl cfgStep []

/-- The result record of `buildAvatarConfig`. -/
structure AvatarConfig where
  gender : String
  assets : List AssetMatch
  config : List (String × String)
deriving DecidableEq, Repr

/-- Model of `AssetMapper.buildAvatarConfig`. -/
def buildAvatarConfig (d : String) : AvatarConfig :=
  let byType := assetsByType (findAssets d)
  { gender := inferredGender d
    assets := byType.map (fun p => p.2)
    config := configOf byType }

/-! Named copies of individual catalog entries and of concrete scored
results, used by concrete theorems below. -/

/-- The catalog entry `outfit_leather_jacket_black`. -/
def blackLeatherJacketAsset : Asset :=
  { id := "outfit_leather_jacket_black", name := "Black Leather Jacket",
    type := "outfit", gender := ["male", "female"],
    tags := ["jacket", "leather", "black", "casual", "cool"] }

/-- The catalog entry `hair_short_black`. -/
def hairShortBlackAsset : Asset :=
  { id := "hair_short_black", name := "Short Black Hair",
    type := "hair", gender := ["male"],
    tags := ["hair", "short", "black", "neat"] }

/-- The catalog entry `hair_long_brown`. -/
def hairLongBrownAsset : Asset :=
  { id := "hair_long_brown", name := "Long Brown Hair",
    type := "hair", gender := ["female"],
    tags := ["hair", "long", "brown", "flowing"] }

/-- The match produced for the leather jacket by the query
`"black leather jacket and blue jeans"` (score 23). -/
def jacketMatch23 : AssetMatch :=
  { id := "outfit_leather_jacket_black", name := "Black Leather Jacket",
    type := "outfit", score := 23, gender := ["male", "female"] }

/-- The match produced for the jeans by the query
`"black leather jacket and blue jeans"` (score 17). -/
def jeansMatch17 : AssetMatch :=
  { id := "outfit_blue_jeans", name := "Blue Denim Jeans",
    type := "bottom", score := 17, gender := ["male", "female"] }

/-- The match produced for the business suit by the query
`"black leather jacket and blue jeans"` (score 11). -/
def suitMatch11 : AssetMatch :=
  { id := "outfit_business_suit", name := "Business Suit",
    type := "outfit", score := 11, gender := ["male", "female"] }

/-! Specification-side definitions (stated from the spec's words, for the
refinement theorems that compare them with the embedded code). -/

/-- Word-boundary condition on the text before a regex match: either the
match is at the start of the text (in which case `prev`, the word-ness of
the preceding character, must be `false`), or the character just before the
match is not a word character. -/
def PreBoundary (prev : Bool) (pre : List Char) : Prop :=
  (pre = [] → prev = false) ∧ ∀ c, pre.getLast? = some c → isWordChar c = false

/-- Declarative reading of the spec's "regex-style whole-word match against
the raw description, case-insensitive": the lower-cased description splits
as `pre ++ w ++ suf` with non-word characters (or text ends) on both sides. -/
def WordOccursSpec (w : String) (d : String) : Prop :=
  ∃ pre suf : List Char,
    (jsToLower d).data = pre ++ w.data ++ suf ∧
    (∀ c, pre.getLast? = some c → isWordChar c = false) ∧
    (∀ c, suf.head? = some c → isWordChar c = false)

/-- Spec §4.3 step 3, stated as written there: traverse the ranked matches
and, per slot, retain only the first-seen match (which, on a list sorted by
non-increasing score, is a highest-scoring one; first-seen wins ties). -/
def firstPerSlot (seen : List String) : List AssetMatch → List AssetMatch
  | [] => []
  | m :: ms =>
    if seen.contains m.type then firstPerSlot seen ms
    else m :: firstPerSlot (m.type :: seen) ms

/-- Key-value form of `firstPerSlot`; on sorted input it coincides with the
`assetsByType` fold of the code (proved below). -/
def newPairs (seen : List String) : List AssetMatch → List (String × AssetMatch)
  | [] => []
  | m :: ms =>
    if seen.contains m.type then newPairs seen ms
    else (m.type, m) :: newPairs (m.type :: seen) ms

/-! ## Infrastructure lemmas about the stable descending sort -/

theorem mem_insertDesc {x m : AssetMatch} {l : List AssetMatch} :
    x ∈ insertDesc m l ↔ x = m ∨ x ∈ l := by
  induction l with
  | nil => simp [insertDesc]
  | cons n ns ih =>
    simp only [insertDesc]
    split
    · simp [List.mem_cons]
    · simp only [List.mem_cons, ih]
      tauto

theorem mem_sortDesc {x : AssetMatch} {l : List AssetMatch} :
    x ∈ sortDesc l ↔ x ∈ l := by
  induction l with
  | nil => simp [sortDesc]
  | cons m ms ih => simp [sortDesc, mem_insertDesc, ih]

theorem pairwise_insertDesc {m : AssetMatch} {l : List AssetMatch}
    (h : List.Pairwise (fun a b => b.score ≤ a.score) l) :
    List.Pairwise (fun a b => b.score ≤ a.score) (insertDesc m l) := by
  induction l with
  | nil => simp [insertDesc]
  | cons n ns ih =>
    rcases List.pairwise_cons.1 h with ⟨hn, hns⟩
    simp only [insertDesc]
    split
    · rename_i hle
      refine List.pairwise_cons.2 ⟨?_, h⟩
      intro b hb
      rcases List.mem_cons.1 hb with rfl | hb
      · exact hle
      · exact le_trans (hn b hb) hle
    · rename_i hgt
      refine List.pairwise_cons.2 ⟨?_, ih hns⟩
      intro b hb
      rcases mem_insertDesc.1 hb with rfl | hb
      · exact le_of_not_le hgt
      · exact hn b hb

theorem sortDesc_sorted (l : List AssetMatch) :
    List.Pairwise (fun a b => b.score ≤ a.score) (sortDesc l) := by
  induction l with
  | nil => simp [sortDesc]
  | cons m ms ih => exact pairwise_insertDesc ih

theorem filter_insertDesc (m : AssetMatch) (l : List AssetMatch) (s : Nat) :
    (insertDesc m l).filter (fun x => x.score == s) =
      if m.score == s then m :: l.filter (fun x => x.score == s)
      else l.filter (fun x => x.score == s) := by
  induction l with
  | nil => simp [insertDesc, List.filter_cons]
  | cons n ns ih =>
    simp only [insertDesc]
    split
    · simp only [List.filter_cons]
    · rename_i hgt
      by_cases hm : (m.score == s) = true
      · have hms : m.score = s := beq_iff_eq.1 hm
        have hn : (n.score == s) = false := by
          have : m.score < n.score := Nat.lt_of_not_le (fun hle => hgt hle)
          simp only [beq_eq_false_iff_ne, ne_eq]
          omega
        simp only [List.filter_cons, hn, hm, ih]
        simp
      · have hm' : (m.score == s) = false := by simpa using hm
        simp only [List.filter_cons, ih, hm']
        simp

theorem filter_sortDesc (l : List AssetMatch) (s : Nat) :
    (sortDesc l).filter (fun x => x.score == s) = l.filter (fun x => x.score == s) := by
  induction l with
  | nil => rfl
  | cons m ms ih =>
    simp only [sortDesc, filter_insertDesc, ih, List.filter_cons]

theorem findAssets_eq (d : String) :
    findAssets d = (sortDesc (scoredMatches SAMPLE_ASSETS d)).take 10 := rfl

theorem findAssets_sorted (d : String) :
    List.Pairwise (fun a b => b.score ≤ a.score) (findAssets d) :=
  List.Pairwise.sublist (List.take_sublist 10 _) (sortDesc_sorted _)

theorem mem_scoredMatches_pos {catalog : List Asset} {d : String} {m : AssetMatch}
    (h : m ∈ scoredMatches catalog d) : 0 < m.score := by
  simp only [scoredMatches, List.mem_filterMap] at h
  obtain ⟨a, _, ha⟩ := h
  split at ha
  · rename_i hs
    cases ha
    exact hs
  · exact absurd ha (by simp)

theorem mem_findAssets_pos {d : String} {m : AssetMatch} (h : m ∈ findAssets d) :
    0 < m.score :=
  mem_scoredMatches_pos (mem_sortDesc.1 (List.mem_of_mem_take h))

/-! ## Claim theorems C4, C5, C7 -/

/-- C4: for every description, `findAssets` returns at most 10 results, and
every returned result's score is a positive integer (scores are `Nat` in
this embedding, matching the non-negative integer weights of the source). -/
theorem C4_findAssets_bounded_and_positive (d : String) :
    (findAssets d).length ≤ 10 ∧ ∀ m, m ∈ findAssets d → 0 < m.score := by
  constructor
  · rw [findAssets_eq, List.length_take]
    exact min_le_left _ _
  · intro m hm
    exact mem_findAssets_pos hm

/-- Witness for C4 at the query `"black leather jacket"` and its top match. -/
theorem C4_witness :
    (findAssets "black leather jacket").length ≤ 10 ∧ 0 < jacketMatch23.score :=
  ⟨(C4_findAssets_bounded_and_positive "black leather jacket").1,
   (C4_findAssets_bounded_and_positive "black leather jacket").2 jacketMatch23 (by decide)⟩

/-- C5: for every description, the `findAssets` output is sorted by
non-increasing score, and for every score value `s`, the results carrying
`s` form (in order) a sublist of the pre-sort match list `scoredMatches`,
which lists the positive-scoring entries in catalog insertion order — so
ties keep catalog insertion order (stable sort, first-inserted wins). -/
theorem C5_findAssets_sorted_stable (d : String) (s : Nat) :
    List.Pairwise (fun a b => b.score ≤ a.score) (findAssets d) ∧
      ((findAssets d).filter (fun m => m.score == s)).Sublist
        ((scoredMatches SAMPLE_ASSETS d).filter (fun m => m.score == s)) := by
  refine ⟨findAssets_sorted d, ?_⟩
  have h := List.Sublist.filter (fun m : AssetMatch => m.score == s)
    (List.take_sublist 10 (sortDesc (scoredMatches SAMPLE_ASSETS d)))
  rw [filter_sortDesc] at h
  rw [findAssets_eq]
  exact h

/-- C7: neither `findAssets` nor `buildAvatarConfig` can fail (both are
total functions in this embedding, as in the source, which has no throw
path); on the empty description `findAssets` returns the empty sequence and
`buildAvatarConfig` returns neutral gender, no matches and an empty
configuration. -/
theorem C7_empty_description :
    findAssets "" = [] ∧
      buildAvatarConfig "" = { gender := "neutral", assets := [], config := [] } := by
  constructor
  · decide
  · decide

/-! ## Infrastructure lemmas about the scorer -/

theorem addHits_zero {hit : String → Bool} {w : Nat} {ts : List String}
    (h : ∀ t ∈ ts, hit t = false) : addHits hit w ts = 0 := by
  induction ts with
  | nil => rfl
  | cons t ts ih =>
    simp only [addHits, h t (List.mem_cons_self t ts)]
    simpa using ih fun t' ht' => h t' (List.mem_cons_of_mem t ht')

theorem addHits_one (hit : String → Bool) (ks : List String) :
    addHits hit 1 ks = (ks.filter hit).length := by
  induction ks with
  | nil => rfl
  | cons k ks ih =>
    simp only [addHits, List.filter_cons, ih]
    by_cases h : hit k = true
    · simp [h, Nat.add_comm]
    · simp [Bool.eq_false_iff.2 h]

theorem isPrefixOf_self_chars (l : List Char) : l.isPrefixOf l = true := by
  induction l with
  | nil => rfl
  | cons c cs ih => simp [List.isPrefixOf, ih]

theorem strIncludes_self (s : String) : strIncludes s s = true := by
  rw [strIncludes]
  cases hd : s.data with
  | nil => rfl
  | cons c cs => simp [hasSub, isPrefixOf_self_chars]

theorem mem_types_keywords {d : String} {t : String}
    (h : t ∈ (extractSearchTerms d).types) : t ∈ (extractSearchTerms d).keywords := by
  have h' : t ∈ (jsSplitWs (jsToLower d)).filter (fun w => clothingTypesVocab.contains w) := h
  exact List.mem_of_mem_filter h'

theorem mem_colors_keywords {d : String} {t : String}
    (h : t ∈ (extractSearchTerms d).colors) : t ∈ (extractSearchTerms d).keywords := by
  have h' : t ∈ (jsSplitWs (jsToLower d)).filter (fun w => colorsVocab.contains w) := h
  exact List.mem_of_mem_filter h'

theorem mem_materials_keywords {d : String} {t : String}
    (h : t ∈ (extractSearchTerms d).materials) : t ∈ (extractSearchTerms d).keywords := by
  have h' : t ∈ (jsSplitWs (jsToLower d)).filter (fun w => materialsVocab.contains w) := h
  exact List.mem_of_mem_filter h'

theorem mem_styles_keywords {d : String} {t : String}
    (h : t ∈ (extractSearchTerms d).styles) : t ∈ (extractSearchTerms d).keywords := by
  have h' : t ∈ (jsSplitWs (jsToLower d)).filter (fun w => stylesVocab.contains w) := h
  exact List.mem_of_mem_filter h'

/-! ## Claim C9 -/

/-- C9: the extractor keeps every whitespace token (however short) in the
raw keyword list, while the generic-keyword pass scores `+1` exactly for the
tokens of length > 3 that hit the entry name or a tag; tokens of length ≤ 3
contribute nothing (removing them does not change the keyword score). -/
theorem C9_keyword_pass (d : String) (a : Asset) (ks : List String) :
    (extractSearchTerms d).keywords = jsSplitWs (jsToLower d) ∧
    keywordScore a ks = keywordScore a (ks.filter fun t => decide (3 < t.length)) ∧
    keywordScore a ks = (ks.filter fun t => decide (3 < t.length) && keywordHit a t).length := by
  refine ⟨rfl, ?_, addHits_one _ ks⟩
  induction ks with
  | nil => rfl
  | cons k ks ih =>
    simp only [keywordScore] at ih ⊢
    by_cases h : 3 < k.length <;> simp [addHits, List.filter_cons, h, ih]

/-! ## Claim C2 -/

/-- C2 counterexample: for the query `"male"` and the catalog entry
`hair_short_black`, no query token occurs in the entry's name or tags and
the entry's type does not occur in the query, yet the score is 2 (not 0)
because the gender pass fires on its own, and the entry is returned by
`findAssets` — refuting the claim that such an entry scores 0 and is
excluded even when its gender matches. -/
theorem C2_counterexample :
    ((extractSearchTerms "male").keywords.all fun t =>
        !strIncludes (jsToLower hairShortBlackAsset.name) t &&
          hairShortBlackAsset.tags.all fun tg => !strIncludes tg t) = true ∧
    (extractSearchTerms "male").keywords.contains hairShortBlackAsset.type = false ∧
    hairShortBlackAsset ∈ SAMPLE_ASSETS ∧
    calculateMatchScore hairShortBlackAsset (extractSearchTerms "male") = 2 ∧
    ({ id := "hair_short_black", name := "Short Black Hair", type := "hair", score := 2,
       gender := ["male"] } : AssetMatch) ∈ findAssets "male" := by
  refine ⟨by decide, by decide, by decide, by decide, by decide⟩

/-- C2 (amended): under the claim's precondition — no query token occurs in
the entry's lower-cased name or as a substring of any tag, and the entry's
type is not a query token — the total score reduces to the gender pass
alone, which is 0 or 2; entries with score 0 never appear in the
`findAssets` result (every returned score is positive), but an entry whose
gender matches scores 2, not 0, and so is not excluded. -/
theorem C2_amended_gender_only (a : Asset) (d : String)
    (hname : ∀ t ∈ (extractSearchTerms d).keywords, strIncludes (jsToLower a.name) t = false)
    (htags : ∀ t ∈ (extractSearchTerms d).keywords, ∀ tg ∈ a.tags, strIncludes tg t = false)
    (htype : a.type ∉ (extractSearchTerms d).keywords) :
    calculateMatchScore a (extractSearchTerms d) = genderScore a (extractSearchTerms d).gender ∧
    (genderScore a (extractSearchTerms d).gender = 0 ∨
      genderScore a (extractSearchTerms d).gender = 2) ∧
    (∀ m, m ∈ findAssets d → 0 < m.score) := by
  have hcontains : ∀ t ∈ (extractSearchTerms d).keywords, a.tags.contains t = false := by
    intro t ht
    cases hc : a.tags.contains t
    · rfl
    · exfalso
      have htmem : t ∈ a.tags := List.elem_iff.1 hc
      have hfalse := htags t ht t htmem
      rw [strIncludes_self] at hfalse
      exact absurd hfalse (by simp)
  have htypes0 : typeScore a (extractSearchTerms d).types = 0 := by
    apply addHits_zero
    intro t ht
    have htk := mem_types_keywords ht
    have h1 := hname t htk
    have h2 : (a.type == t) = false := beq_eq_false_iff_ne.2 (fun he => htype (he ▸ htk))
    have h3 := hcontains t htk
    rw [typeHit, h1, h2, h3]
    rfl
  have hcolors0 : colorScore a (extractSearchTerms d).colors = 0 := by
    apply addHits_zero
    intro t ht
    have htk := mem_colors_keywords ht
    rw [nameTagHit, hname t htk, hcontains t htk]
    rfl
  have hmat0 : materialScore a (extractSearchTerms d).materials = 0 := by
    apply addHits_zero
    intro t ht
    have htk := mem_materials_keywords ht
    rw [nameTagHit, hname t htk, hcontains t htk]
    rfl
  have hsty0 : styleScore a (extractSearchTerms d).styles = 0 := by
    apply addHits_zero
    intro t ht
    have htk := mem_styles_keywords ht
    rw [nameTagHit, hname t htk, hcontains t htk]
    rfl
  have hkw0 : keywordScore a (extractSearchTerms d).keywords = 0 := by
    apply addHits_zero
    intro k hk
    have h1 := hname k hk
    have h2 : a.tags.any (fun tg => strIncludes tg k) = false :=
      List.any_eq_false.2 (fun tg htg => by simp [htags k hk tg htg])
    simp [keywordHit, h1, h2]
  refine ⟨?_, ?_, fun m hm => mem_findAssets_pos hm⟩
  · rw [calculateMatchScore, htypes0, hcolors0, hmat0, hsty0, hkw0]
    omega
  · rw [genderScore]
    split
    · split
      · exact Or.inr rfl
      · exact Or.inl rfl
    · exact Or.inl rfl

/-- Witness for C2 (amended) at the counterexample input: the `"male"`
query against the `hair_short_black` entry. -/
theorem C2_witness :
    calculateMatchScore hairShortBlackAsset (extractSearchTerms "male") =
      genderScore hairShortBlackAsset (extractSearchTerms "male").gender :=
  (C2_amended_gender_only hairShortBlackAsset "male" (by decide) (by decide) (by decide)).1

/-! ## Claim C10 -/

/-- C10: the gender pass tests whether the de-pluralized query token is a
substring of an applicable-gender tag, so (a) a query containing the token
`"male"` earns the +2 bonus against any entry applicable to `"female"`
(`"female"` contains `"male"`), while (b) the tokens `man`, `woman`, `boy`,
`girl` never earn the bonus against entries whose applicable genders are
among `{male, female}`. -/
theorem C10_gender_substring (a : Asset) (d : String) :
    ("male" ∈ (extractSearchTerms d).gender → "female" ∈ a.gender →
      genderScore a (extractSearchTerms d).gender = 2) ∧
    ((∀ g ∈ (extractSearchTerms d).gender, g ∈ (["man", "woman", "boy", "girl"] : List String)) →
      (∀ ag ∈ a.gender, ag ∈ (["male", "female"] : List String)) →
      genderScore a (extractSearchTerms d).gender = 0) := by
  constructor
  · intro h1 h2
    have hlen : 0 < (extractSearchTerms d).gender.length := List.length_pos_of_mem h1
    have hhit : genderHit a "male" = true := by
      rw [genderHit]
      exact List.any_eq_true.2 ⟨"female", h2, by decide⟩
    have hany : (extractSearchTerms d).gender.any (genderHit a) = true :=
      List.any_eq_true.2 ⟨"male", h1, hhit⟩
    rw [genderScore, if_pos hlen, if_pos hany]
  · intro hg hag
    by_cases hlen : 0 < (extractSearchTerms d).gender.length
    · have hany : (extractSearchTerms d).gender.any (genderHit a) = false := by
        rw [List.any_eq_false]
        intro g hgm hhit
        rw [genderHit] at hhit
        obtain ⟨ag, hagm, hs⟩ := List.any_eq_true.1 hhit
        have hfalse :=
          (by decide : ∀ g2 ∈ (["man", "woman", "boy", "girl"] : List String),
            ∀ ag2 ∈ (["male", "female"] : List String),
              strIncludes (jsToLower ag2) (stripPluralS g2) = false)
          g (hg g hgm) ag (hag ag hagm)
        rw [hs] at hfalse
        exact absurd hfalse (by simp)
      rw [genderScore, if_pos hlen, if_neg (by simp [hany])]
    · rw [genderScore, if_neg hlen]

/-- Witness for C10: part (a) at the query `"male"` against the
female-only entry `hair_long_brown`, part (b) at the query `"man"` against
the male-only entry `hair_short_black`. -/
theorem C10_witness :
    genderScore hairLongBrownAsset (extractSearchTerms "male").gender = 2 ∧
    genderScore hairShortBlackAsset (extractSearchTerms "man").gender = 0 :=
  ⟨(C10_gender_substring hairLongBrownAsset "male").1 (by decide) (by decide),
   (C10_gender_substring hairShortBlackAsset "man").2 (by decide) (by decide)⟩

/-! ## Claim C3 -/

/-- C3 counterexample: for the entry `Black Leather Jacket` and the query
`"black leather jacket for a man"`, the gender pass awards 0, not +2 —
`"man"` is not a substring of `"male"` or `"female"` — so the total is 23
(10 + 5 + 5 + 3 generic keywords), not the claimed base 22 plus keywords. -/
theorem C3_counterexample :
    blackLeatherJacketAsset ∈ SAMPLE_ASSETS ∧
    genderScore blackLeatherJacketAsset
      (extractSearchTerms "black leather jacket for a man").gender = 0 ∧
    keywordScore blackLeatherJacketAsset
      (extractSearchTerms "black leather jacket for a man").keywords = 3 ∧
    calculateMatchScore blackLeatherJacketAsset
      (extractSearchTerms "black leather jacket for a man") = 23 ∧
    ¬ (calculateMatchScore blackLeatherJacketAsset
          (extractSearchTerms "black leather jacket for a man") =
        22 + keywordScore blackLeatherJacketAsset
          (extractSearchTerms "black leather jacket for a man").keywords) := by
  refine ⟨by decide, by decide, by decide, by decide, by decide⟩

/-- C3 (amended): same entry and query, correct breakdown — garment-type
hit `jacket` (+10), color hit `black` (+5), material hit `leather` (+5), no
style hit, no gender hit (`"man"` is not a substring of `"male"` or
`"female"`, so the base total is 20), and the generic-keyword pass adds +1
for each of the three tokens longer than 3 characters found in the name
(`black`, `leather`, `jacket`), for a total of 23. -/
theorem C3_amended_scoring :
    typeScore blackLeatherJacketAsset
      (extractSearchTerms "black leather jacket for a man").types = 10 ∧
    colorScore blackLeatherJacketAsset
      (extractSearchTerms "black leather jacket for a man").colors = 5 ∧
    materialScore blackLeatherJacketAsset
      (extractSearchTerms "black leather jacket for a man").materials = 5 ∧
    styleScore blackLeatherJacketAsset
      (extractSearchTerms "black leather jacket for a man").styles = 0 ∧
    genderScore blackLeatherJacketAsset
      (extractSearchTerms "black leather jacket for a man").gender = 0 ∧
    keywordScore blackLeatherJacketAsset
      (extractSearchTerms "black leather jacket for a man").keywords = 3 ∧
    calculateMatchScore blackLeatherJacketAsset
      (extractSearchTerms "black leather jacket for a man") = 23 ∧
    strIncludes "male" "man" = false ∧ strIncludes "female" "man" = false := by
  refine ⟨by decide, by decide, by decide, by decide, by decide, by decide, by decide,
    by decide, by decide⟩

/-! ## Infrastructure for the whole-word gender regex (claim C6) -/

theorem matchHere_iff {pat cs : List Char} :
    matchHere pat cs = true ↔
      ∃ suf, cs = pat ++ suf ∧ ∀ c, suf.head? = some c → isWordChar c = false := by
  induction pat generalizing cs with
  | nil =>
    cases cs with
    | nil => exact ⟨fun _ => ⟨[], rfl, by simp⟩, fun _ => rfl⟩
    | cons c cs' =>
      simp only [matchHere, List.nil_append, Bool.not_eq_true']
      constructor
      · intro h
        refine ⟨c :: cs', rfl, ?_⟩
        intro x hx
        have hxc : x = c := by simpa using hx.symm
        subst hxc
        exact h
      · rintro ⟨suf, rfl, hh⟩
        exact hh c rfl
  | cons p ps ih =>
    cases cs with
    | nil => simp [matchHere]
    | cons c cs' =>
      simp only [matchHere, Bool.and_eq_true, beq_iff_eq, ih, List.cons_append]
      constructor
      · rintro ⟨rfl, suf, rfl, hh⟩
        exact ⟨suf, rfl, hh⟩
      · rintro ⟨suf, heq, hh⟩
        injection heq with h1 h2
        exact ⟨h1.symm, suf, h2, hh⟩

theorem occursFrom_iff {pat : List Char} (hne : pat ≠ []) :
    ∀ {prev : Bool} {cs : List Char},
      occursFrom pat prev cs = true ↔
        ∃ pre suf, cs = pre ++ pat ++ suf ∧ PreBoundary prev pre ∧
          ∀ c, suf.head? = some c → isWordChar c = false := by
  intro prev cs
  induction cs generalizing prev with
  | nil =>
    simp only [occursFrom]
    constructor
    · intro h
      exact absurd h (by simp)
    · rintro ⟨pre, suf, heq, -, -⟩
      exfalso
      apply hne
      have h0 : pre ++ pat ++ suf = [] := heq.symm
      rw [List.append_assoc] at h0
      exact (List.append_eq_nil.1 (List.append_eq_nil.1 h0).2).1
  | cons c cs' ih =>
    simp only [occursFrom, Bool.or_eq_true, Bool.and_eq_true, Bool.not_eq_true']
    rw [matchHere_iff, ih]
    constructor
    · rintro (⟨hprev, suf, heq, hh⟩ | ⟨pre, suf, heq, hb, hh⟩)
      · exact ⟨[], suf, by simpa using heq, ⟨fun _ => hprev, by simp⟩, hh⟩
      · refine ⟨c :: pre, suf, by simp [heq], ⟨fun h => absurd h (by simp), ?_⟩, hh⟩
        intro x hx
        cases pre with
        | nil =>
          have hxc : x = c := by simpa using hx.symm
          subst hxc
          exact hb.1 rfl
        | cons q qre =>
          rw [List.getLast?_cons_cons] at hx
          exact hb.2 x hx
    · rintro ⟨pre, suf, heq, hb, hh⟩
      cases pre with
      | nil =>
        exact Or.inl ⟨hb.1 rfl, suf, by simpa using heq, hh⟩
      | cons q pre' =>
        right
        rw [List.cons_append, List.cons_append] at heq
        injection heq with h1 h2
        refine ⟨pre', suf, h2, ⟨?_, ?_⟩, hh⟩
        · intro hpre'
          subst hpre'
          rw [h1]
          exact hb.2 q (by simp)
        · intro x hx
          apply hb.2 x
          cases pre' with
          | nil => cases hx
          | cons r rs =>
            rw [List.getLast?_cons_cons]
            exact hx

theorem wordOccurs_iff {w d : String} (hne : w.data ≠ []) :
    wordOccurs w d = true ↔ WordOccursSpec w d := by
  rw [wordOccurs, occursFrom_iff hne]
  simp only [WordOccursSpec, PreBoundary]
  constructor
  · rintro ⟨pre, suf, h1, hb, h3⟩
    exact ⟨pre, suf, h1, hb.2, h3⟩
  · rintro ⟨pre, suf, h1, h2, h3⟩
    exact ⟨pre, suf, h1, ⟨fun _ => by simp, h2⟩, h3⟩

theorem anyWord_iff {ws : List String} {d : String} (h : ∀ w ∈ ws, w.data ≠ []) :
    (ws.any fun w => wordOccurs w d) = true ↔ ∃ w ∈ ws, WordOccursSpec w d := by
  rw [List.any_eq_true]
  constructor
  · rintro ⟨w, hw, ho⟩
    exact ⟨w, hw, (wordOccurs_iff (h w hw)).1 ho⟩
  · rintro ⟨w, hw, ho⟩
    exact ⟨w, hw, (wordOccurs_iff (h w hw)).2 ho⟩

/-! ## Claim C6 -/

/-- C6: `buildAvatarConfig` infers gender by case-insensitive whole-word
match — `male` exactly when some word of `{man, male, boy, gentleman}`
occurs whole-word in the description, otherwise `female` exactly when some
word of `{woman, female, girl, lady}` occurs, otherwise `neutral` (so when
both pattern classes occur, male wins); and the three spec examples. -/
theorem C6_gender_inference :
    (∀ d : String,
      ((buildAvatarConfig d).gender = "male" ↔ ∃ w ∈ maleRegexWords, WordOccursSpec w d) ∧
      ((buildAvatarConfig d).gender = "female" ↔
        (¬ ∃ w ∈ maleRegexWords, WordOccursSpec w d) ∧
          ∃ w ∈ femaleRegexWords, WordOccursSpec w d) ∧
      ((buildAvatarConfig d).gender = "neutral" ↔
        (¬ ∃ w ∈ maleRegexWords, WordOccursSpec w d) ∧
          ¬ ∃ w ∈ femaleRegexWords, WordOccursSpec w d)) ∧
    (buildAvatarConfig "Indian man with black jacket").gender = "male" ∧
    (buildAvatarConfig "elegant woman in red dress").gender = "female" ∧
    (buildAvatarConfig "a person walking").gender = "neutral" := by
  refine ⟨?_, by decide, by decide, by decide⟩
  intro d
  have hg : (buildAvatarConfig d).gender = inferredGender d := rfl
  have hmale : (maleRegexWords.any fun w => wordOccurs w d) = true ↔
      ∃ w ∈ maleRegexWords, WordOccursSpec w d := anyWord_iff (by decide)
  have hfem : (femaleRegexWords.any fun w => wordOccurs w d) = true ↔
      ∃ w ∈ femaleRegexWords, WordOccursSpec w d := anyWord_iff (by decide)
  rw [hg, inferredGender]
  by_cases hA : (maleRegexWords.any fun w => wordOccurs w d) = true
  · rw [if_pos hA]
    refine ⟨⟨fun _ => hmale.1 hA, fun _ => rfl⟩, ?_, ?_⟩
    · exact ⟨fun h => absurd h (by decide), fun ⟨hnm, _⟩ => absurd (hmale.1 hA) hnm⟩
    · exact ⟨fun h => absurd h (by decide), fun ⟨hnm, _⟩ => absurd (hmale.1 hA) hnm⟩
  · rw [if_neg hA]
    have hnm : ¬ ∃ w ∈ maleRegexWords, WordOccursSpec w d := fun h => hA (hmale.2 h)
    by_cases hB : (femaleRegexWords.any fun w => wordOccurs w d) = true
    · rw [if_pos hB]
      refine ⟨?_, ⟨fun _ => ⟨hnm, hfem.1 hB⟩, fun _ => rfl⟩, ?_⟩
      · exact ⟨fun h => absurd h (by decide), fun h => absurd h hnm⟩
      · exact ⟨fun h => absurd h (by decide), fun ⟨_, hnf⟩ => absurd (hfem.1 hB) hnf⟩
    · rw [if_neg hB]
      have hnf : ¬ ∃ w ∈ femaleRegexWords, WordOccursSpec w d := fun h => hB (hfem.2 h)
      refine ⟨?_, ?_, ⟨fun _ => ⟨hnm, hnf⟩, fun _ => rfl⟩⟩
      · exact ⟨fun h => absurd h (by decide), fun h => absurd h hnm⟩
      · exact ⟨fun h => absurd h (by decide), fun ⟨_, hf⟩ => absurd hf hnf⟩

/-! ## Infrastructure for the best-per-slot grouping (claims C8 and C1) -/

theorem lookupType_mem {l : List (String × AssetMatch)} {t : String} {e : AssetMatch}
    (h : lookupType l t = some e) : (t, e) ∈ l := by
  induction l with
  | nil => cases h
  | cons p rest ih =>
    obtain ⟨k, v⟩ := p
    simp only [lookupType] at h
    split at h
    · rename_i hk
      cases h
      have hkt : k = t := beq_iff_eq.1 hk
      subst hkt
      exact List.mem_cons_self _ _
    · exact List.mem_cons_of_mem _ (ih h)

theorem lookupType_eq_none_iff {l : List (String × AssetMatch)} {t : String} :
    lookupType l t = none ↔ (l.map Prod.fst).contains t = false := by
  induction l with
  | nil => simp [lookupType]
  | cons p rest ih =>
    obtain ⟨k, v⟩ := p
    simp only [lookupType, List.map_cons, List.contains_cons]
    split
    · rename_i hk
      have hkt : k = t := beq_iff_eq.1 hk
      subst hkt
      simp
    · rename_i hk
      have htk : (t == k) = false := by
        refine beq_eq_false_iff_ne.2 fun he => hk ?_
        exact beq_iff_eq.2 he.symm
      simp [htk, ih]

theorem contains_append_singleton (l : List String) (x t : String) :
    (l ++ [x]).contains t = (x :: l).contains t := by
  induction l with
  | nil => rfl
  | cons a l ih =>
    rw [List.cons_append, List.contains_cons, ih]
    simp only [List.contains_cons]
    rw [Bool.or_left_comm]

theorem newPairs_congr : ∀ (ms : List AssetMatch) (seen1 seen2 : List String),
    (∀ t, seen1.contains t = seen2.contains t) →
    newPairs seen1 ms = newPairs seen2 ms := by
  intro ms
  induction ms with
  | nil => intro _ _ _; rfl
  | cons m ms ih =>
    intro seen1 seen2 h
    rw [newPairs, newPairs, h]
    split
    · exact ih seen1 seen2 h
    · rw [ih (m.type :: seen1) (m.type :: seen2)
        fun t => by simp only [List.contains_cons, h t]]

theorem foldl_stepByType_eq :
    ∀ (ms : List AssetMatch) (acc : List (String × AssetMatch)),
      List.Pairwise (fun a b => b.score ≤ a.score) ms →
      (∀ m ∈ ms, ∀ p ∈ acc, p.1 = m.type → m.score ≤ p.2.score) →
      ms.foldl stepByType acc = acc ++ newPairs (acc.map Prod.fst) ms := by
  intro ms
  induction ms with
  | nil =>
    intro acc _ _
    simp [newPairs]
  | cons m ms ih =>
    intro acc hp hacc
    rcases List.pairwise_cons.1 hp with ⟨hm, hp'⟩
    rw [List.foldl_cons]
    cases he : lookupType acc m.type with
    | some e =>
      have hmemp : (m.type, e) ∈ acc := lookupType_mem he
      have hle : m.score ≤ e.score :=
        hacc m (List.mem_cons_self _ _) (m.type, e) hmemp rfl
      have hstep : stepByType acc m = acc := by
        rw [stepByType, he]
        simp [Nat.not_lt.2 hle]
      have hcontains : (acc.map Prod.fst).contains m.type = true := by
        cases hc : (acc.map Prod.fst).contains m.type
        · rw [lookupType_eq_none_iff.2 hc] at he
          cases he
        · rfl
      rw [hstep, ih acc hp' fun m' hm' p hp2 => hacc m' (List.mem_cons_of_mem _ hm') p hp2]
      congr 1
      rw [newPairs, hcontains]
      simp
    | none =>
      have hcontains : (acc.map Prod.fst).contains m.type = false :=
        lookupType_eq_none_iff.1 he
      have hstep : stepByType acc m = acc ++ [(m.type, m)] := by
        rw [stepByType, he]
      have hacc' : ∀ m' ∈ ms, ∀ p ∈ acc ++ [(m.type, m)], p.1 = m'.type →
          m'.score ≤ p.2.score := by
        intro m' hm' p hp2 heq
        rcases List.mem_append.1 hp2 with h | h
        · exact hacc m' (List.mem_cons_of_mem _ hm') p h heq
        · have hpm : p = (m.type, m) := by simpa using h
          subst hpm
          exact hm m' hm'
      rw [hstep, ih (acc ++ [(m.type, m)]) hp' hacc']
      have hkeys : (acc ++ [(m.type, m)]).map Prod.fst = acc.map Prod.fst ++ [m.type] := by
        simp
      rw [hkeys,
        newPairs_congr ms (acc.map Prod.fst ++ [m.type]) (m.type :: acc.map Prod.fst)
          fun t => contains_append_singleton (acc.map Prod.fst) m.type t]
      rw [newPairs, hcontains]
      simp

theorem assetsByType_eq_newPairs {ms : List AssetMatch}
    (h : List.Pairwise (fun a b => b.score ≤ a.score) ms) :
    assetsByType ms = newPairs [] ms := by
  have hh := foldl_stepByType_eq ms [] h (by simp)
  simpa [assetsByType] using hh

theorem newPairs_snd : ∀ (ms : List AssetMatch) (seen : List String),
    (newPairs seen ms).map (fun p => p.2) = firstPerSlot seen ms := by
  intro ms
  induction ms with
  | nil => intro seen; rfl
  | cons m ms ih =>
    intro seen
    rw [newPairs, firstPerSlot]
    split
    · exact ih seen
    · simp only [List.map_cons]
      rw [ih]

theorem newPairs_fst : ∀ (ms : List AssetMatch) (seen : List String),
    ∀ p ∈ newPairs seen ms, p.1 = p.2.type := by
  intro ms
  induction ms with
  | nil => intro seen p hp; cases hp
  | cons m ms ih =>
    intro seen p hp
    rw [newPairs] at hp
    split at hp
    · exact ih seen p hp
    · rcases List.mem_cons.1 hp with rfl | hp2
      · rfl
      · exact ih _ p hp2

theorem mem_firstPerSlot_not_seen : ∀ (ms : List AssetMatch) {seen : List String}
    {m : AssetMatch}, m ∈ firstPerSlot seen ms → seen.contains m.type = false := by
  intro ms
  induction ms with
  | nil => intro seen m h; cases h
  | cons n ms ih =>
    intro seen m h
    rw [firstPerSlot] at h
    split at h
    · exact ih h
    · rename_i hns
      rcases List.mem_cons.1 h with rfl | h2
      · simpa using hns
      · have hh := ih h2
        rw [List.contains_cons] at hh
        exact (Bool.or_eq_false_iff.1 hh).2

theorem firstPerSlot_pairwise_types : ∀ (ms : List AssetMatch) (seen : List String),
    List.Pairwise (fun a b => a.type ≠ b.type) (firstPerSlot seen ms) := by
  intro ms
  induction ms with
  | nil => intro seen; simp [firstPerSlot]
  | cons n ms ih =>
    intro seen
    rw [firstPerSlot]
    split
    · exact ih seen
    · refine List.pairwise_cons.2 ⟨?_, ih _⟩
      intro b hb
      have hh := mem_firstPerSlot_not_seen ms hb
      rw [List.contains_cons] at hh
      have hne : b.type ≠ n.type := by
        simpa using (Bool.or_eq_false_iff.1 hh).1
      exact fun heq => hne heq.symm

theorem firstPerSlot_covers : ∀ (ms : List AssetMatch) (seen : List String)
    {m : AssetMatch}, m ∈ ms → seen.contains m.type = false →
    ∃ m2 ∈ firstPerSlot seen ms, m2.type = m.type := by
  intro ms
  induction ms with
  | nil => intro seen m h; cases h
  | cons n ms ih =>
    intro seen m hm hs
    rw [firstPerSlot]
    rcases List.mem_cons.1 hm with rfl | hm2
    · split
      · rename_i hcond
        rw [hcond] at hs
        simp at hs
      · exact ⟨m, List.mem_cons_self _ _, rfl⟩
    · split
      · exact ih seen hm2 hs
      · by_cases hteq : m.type = n.type
        · exact ⟨n, List.mem_cons_self _ _, hteq.symm⟩
        · have hs' : (n.type :: seen).contains m.type = false := by
            rw [List.contains_cons, beq_eq_false_iff_ne.2 hteq, hs]
            rfl
          obtain ⟨m2, hm2', ht⟩ := ih _ hm2 hs'
          exact ⟨m2, List.mem_cons_of_mem _ hm2', ht⟩

theorem firstPerSlot_max : ∀ (ms : List AssetMatch),
    List.Pairwise (fun a b => b.score ≤ a.score) ms →
    ∀ {seen : List String} {m2 m : AssetMatch},
      m2 ∈ firstPerSlot seen ms → m ∈ ms → m.type = m2.type → m.score ≤ m2.score := by
  intro ms
  induction ms with
  | nil =>
    intro _ seen m2 m hm2 hm
    cases hm
  | cons n ms ih =>
    intro hp seen m2 m hm2 hm ht
    rcases List.pairwise_cons.1 hp with ⟨hn, hp'⟩
    rw [firstPerSlot] at hm2
    split at hm2
    · rename_i hcond
      rcases List.mem_cons.1 hm with rfl | hm'
      · have hns := mem_firstPerSlot_not_seen ms hm2
        rw [← ht] at hns
        rw [hcond] at hns
        simp at hns
      · exact ih hp' hm2 hm' ht
    · rcases List.mem_cons.1 hm2 with rfl | hm2'
      · rcases List.mem_cons.1 hm with rfl | hm'
        · exact le_refl _
        · exact hn m hm'
      · have hns := mem_firstPerSlot_not_seen ms hm2'
        rw [List.contains_cons] at hns
        have hne : m2.type ≠ n.type := by
          simpa using (Bool.or_eq_false_iff.1 hns).1
        rcases List.mem_cons.1 hm with rfl | hm'
        · exact absurd ht.symm hne
        · exact ih hp' hm2' hm' ht

/-! ## Claim C8 -/

/-- C8: the `matches` field of `buildAvatarConfig` keeps exactly the
first-seen match of each slot of the `findAssets` output (the spec-side
`firstPerSlot`), hence at most one match per slot, every slot of the output
is represented, and each retained match scores at least as much as every
`findAssets` result sharing its slot (first-seen wins ties, consistent with
the `findAssets` ordering). -/
theorem C8_matches_best_per_slot (d : String) :
    (buildAvatarConfig d).assets = firstPerSlot [] (findAssets d) ∧
    List.Pairwise (fun a b => a.type ≠ b.type) (buildAvatarConfig d).assets ∧
    (∀ m, m ∈ findAssets d →
      ∃ m2, m2 ∈ (buildAvatarConfig d).assets ∧ m2.type = m.type) ∧
    (∀ m2 m, m2 ∈ (buildAvatarConfig d).assets → m ∈ findAssets d →
      m.type = m2.type → m.score ≤ m2.score) := by
  have hsort := findAssets_sorted d
  have h1 : (buildAvatarConfig d).assets = firstPerSlot [] (findAssets d) := by
    have h0 : (buildAvatarConfig d).assets =
        (assetsByType (findAssets d)).map (fun p => p.2) := rfl
    rw [h0, assetsByType_eq_newPairs hsort, newPairs_snd]
  refine ⟨h1, ?_, ?_, ?_⟩
  · rw [h1]
    exact firstPerSlot_pairwise_types _ _
  · intro m hm
    rw [h1]
    obtain ⟨m2, hm2, ht⟩ := firstPerSlot_covers (findAssets d) [] hm rfl
    exact ⟨m2, hm2, ht⟩
  · intro m2 m hm2 hm ht
    rw [h1] at hm2
    exact firstPerSlot_max _ hsort hm2 hm ht

/-- Witness for C8 at the query `"black leather jacket and blue jeans"`:
the retained `outfit` match (the jacket, score 23) dominates the business
suit (score 11), another `outfit` result of `findAssets`. -/
theorem C8_witness : suitMatch11.score ≤ jacketMatch23.score :=
  (C8_matches_best_per_slot "black leather jacket and blue jeans").2.2.2
    jacketMatch23 suitMatch11 (by decide) (by decide) (by decide)

/-! ## Infrastructure for the configuration record (claim C1) -/

theorem lookupStr_upsertStr_self : ∀ (c : List (String × String)) (k v : String),
    lookupStr (upsertStr c k v) k = some v := by
  intro c
  induction c with
  | nil =>
    intro k v
    simp [upsertStr, lookupStr]
  | cons p rest ih =>
    intro k v
    obtain ⟨k2, v2⟩ := p
    rw [upsertStr]
    split
    · rename_i hkk
      rw [lookupStr, if_pos hkk]
    · rename_i hkk
      rw [lookupStr, if_neg hkk]
      exact ih k v

theorem lookupStr_upsertStr_ne : ∀ (c : List (String × String)) {k1 k : String} (v : String),
    k1 ≠ k → lookupStr (upsertStr c k1 v) k = lookupStr c k := by
  intro c
  induction c with
  | nil =>
    intro k1 k v h
    have hb : (k1 == k) = false := beq_eq_false_iff_ne.2 h
    simp [upsertStr, lookupStr, hb]
  | cons p rest ih =>
    intro k1 k v h
    obtain ⟨k2, v2⟩ := p
    rw [upsertStr]
    split
    · rename_i hkk
      have hk21 : k2 = k1 := beq_iff_eq.1 hkk
      subst hk21
      have hb : (k2 == k) = false := beq_eq_false_iff_ne.2 h
      rw [lookupStr, lookupStr, hb]
      simp
    · rw [lookupStr, lookupStr]
      split
      · rfl
      · exact ih v h

theorem mem_upsertStr : ∀ (c : List (String × String)) (k v : String) {b : String × String},
    b ∈ upsertStr c k v → b ∈ c ∨ b = (k, v) := by
  intro c
  induction c with
  | nil =>
    intro k v b hb
    exact Or.inr (by simpa [upsertStr] using hb)
  | cons p rest ih =>
    intro k v b hb
    obtain ⟨k2, v2⟩ := p
    rw [upsertStr] at hb
    split at hb
    · rename_i hkk
      have hk2 : k2 = k := beq_iff_eq.1 hkk
      rcases List.mem_cons.1 hb with rfl | hb2
      · exact Or.inr (by rw [hk2])
      · exact Or.inl (List.mem_cons_of_mem _ hb2)
    · rcases List.mem_cons.1 hb with rfl | hb2
      · exact Or.inl (List.mem_cons_self _ _)
      · rcases ih k v hb2 with h2 | h2
        · exact Or.inl (List.mem_cons_of_mem _ h2)
        · exact Or.inr h2

theorem upsertStr_keys_pairwise : ∀ (c : List (String × String)) (k v : String),
    List.Pairwise (fun a b => a.1 ≠ b.1) c →
    List.Pairwise (fun a b => a.1 ≠ b.1) (upsertStr c k v) := by
  intro c
  induction c with
  | nil =>
    intro k v _
    simp [upsertStr]
  | cons p rest ih =>
    intro k v h
    obtain ⟨k2, v2⟩ := p
    rcases List.pairwise_cons.1 h with ⟨hh, ht⟩
    rw [upsertStr]
    split
    · exact List.pairwise_cons.2 ⟨fun b hb => hh b hb, ht⟩
    · rename_i hne
      refine List.pairwise_cons.2 ⟨?_, ih k v ht⟩
      intro b hb
      rcases mem_upsertStr rest k v hb with h2 | h2
      · exact hh b h2
      · subst h2
        exact fun he => hne (beq_iff_eq.2 he)

theorem configOf_keys_pairwise : ∀ (l : List (String × AssetMatch))
    (cfg : List (String × String)), List.Pairwise (fun a b => a.1 ≠ b.1) cfg →
    List.Pairwise (fun a b => a.1 ≠ b.1) (l.foldl cfgStep cfg) := by
  intro l
  induction l with
  | nil => intro cfg h; exact h
  | cons p rest ih =>
    intro cfg h
    rw [List.foldl_cons]
    apply ih
    rw [cfgStep]
    cases mapTypeToConfigKey p.1 with
    | none => exact h
    | some k => exact upsertStr_keys_pairwise cfg k p.2.id h

theorem lookupStr_foldl_cfgStep : ∀ (l : List (String × AssetMatch))
    (cfg : List (String × String)) (k : String),
    lookupStr (l.foldl cfgStep cfg) k =
      (((l.filter fun p => mapTypeToConfigKey p.1 == some k).getLast?).map
        (fun p => some p.2.id)).getD (lookupStr cfg k) := by
  intro l
  induction l with
  | nil => intro cfg k; rfl
  | cons p rest ih =>
    intro cfg k
    rw [List.foldl_cons, ih (cfgStep cfg p) k, List.filter_cons]
    by_cases hq : (mapTypeToConfigKey p.1 == some k) = true
    · rw [if_pos hq]
      have hk : mapTypeToConfigKey p.1 = some k := by simpa using hq
      have hstep : cfgStep cfg p = upsertStr cfg k p.2.id := by
        rw [cfgStep, hk]
      cases hg : (rest.filter fun p2 => mapTypeToConfigKey p2.1 == some k) with
      | nil =>
        simp only [List.getLast?_nil, Option.map_none', Option.getD_none,
          List.getLast?_singleton, Option.map_some', Option.getD_some]
        rw [hstep, lookupStr_upsertStr_self]
      | cons q qs =>
        rw [List.getLast?_cons_cons]
        cases hg2 : (q :: qs).getLast? with
        | none => exact absurd hg2 (by simp)
        | some r => simp
    · rw [if_neg hq]
      have hq' : (mapTypeToConfigKey p.1 == some k) = false := by simpa using hq
      have hstep : lookupStr (cfgStep cfg p) k = lookupStr cfg k := by
        rw [cfgStep]
        cases hm : mapTypeToConfigKey p.1 with
        | none => rfl
        | some k2 =>
          have hne : k2 ≠ k := by
            intro he
            rw [hm, he] at hq'
            simp at hq'
          exact lookupStr_upsertStr_ne cfg p.2.id hne
      rw [hstep]

/-! ## Claim C1 -/

/-- C1 counterexample: for the query
`"black leather jacket and blue jeans"`, `slotConfiguration["outfit"]`
holds the id of the blue jeans (score 17), although the leather jacket
match — whose slot also maps to the key `outfit` — is in the result with
score 23: the configuration loop lets later slots overwrite the key, so
the stored id is not that of the highest-scoring match for the key. -/
theorem C1_counterexample :
    ¬ (∀ k iv, lookupStr
          (buildAvatarConfig "black leather jacket and blue jeans").config k = some iv →
        ∃ m, m ∈ findAssets "black leather jacket and blue jeans" ∧ m.id = iv ∧
          mapTypeToConfigKey m.type = some k ∧
          ∀ m2, m2 ∈ findAssets "black leather jacket and blue jeans" →
            mapTypeToConfigKey m2.type = some k → m2.score ≤ m.score) := by
  intro h
  obtain ⟨m, hmem, hid, -, hbest⟩ := h "outfit" "outfit_blue_jeans" (by decide)
  have hm : m = jeansMatch17 :=
    (by decide : ∀ x ∈ findAssets "black leather jacket and blue jeans",
      x.id = "outfit_blue_jeans" → x = jeansMatch17) m hmem hid
  have hle := hbest jacketMatch23 (by decide) (by decide)
  rw [hm] at hle
  exact absurd hle (by decide)

/-- C1 (amended): `slotConfiguration` has at most one entry per external
configuration key (its keys are pairwise distinct), and the id stored under
a key is that of the LAST retained per-slot match whose slot maps to the
key, in retained order — not the highest-scoring one: when several slots
(e.g. `outfit`, `top`, `bottom`) map to the same key, later slots
overwrite, and only when a single slot maps to the key is the stored id
that of the highest-scoring match for it. -/
theorem C1_amended_config (d : String) (k : String) :
    List.Pairwise (fun a b => a.1 ≠ b.1) (buildAvatarConfig d).config ∧
    lookupStr (buildAvatarConfig d).config k =
      ((buildAvatarConfig d).assets.filter fun m =>
          mapTypeToConfigKey m.type == some k).getLast?.map (fun m => m.id) := by
  have hsort := findAssets_sorted d
  have hbt : assetsByType (findAssets d) = newPairs [] (findAssets d) :=
    assetsByType_eq_newPairs hsort
  have hcfg : (buildAvatarConfig d).config =
      (assetsByType (findAssets d)).foldl cfgStep [] := rfl
  have hassets : (buildAvatarConfig d).assets =
      (assetsByType (findAssets d)).map (fun p => p.2) := rfl
  constructor
  · rw [hcfg]
    exact configOf_keys_pairwise _ [] (by simp)
  · rw [hcfg, hassets, lookupStr_foldl_cfgStep, List.filter_map, List.getLast?_map]
    have hfilter : (assetsByType (findAssets d)).filter
        ((fun m => mapTypeToConfigKey m.type == some k) ∘ fun p => p.2) =
        (assetsByType (findAssets d)).filter
          (fun p => mapTypeToConfigKey p.1 == some k) := by
      apply List.filter_congr
      intro p hp
      have hfst : p.1 = p.2.type := by
        rw [hbt] at hp
        exact newPairs_fst _ _ p hp
      simp only [Function.comp]
      rw [hfst]
    rw [hfilter]
    cases hg : ((assetsByType (findAssets d)).filter
        (fun p => mapTypeToConfigKey p.1 == some k)).getLast? with
    | none => simp [lookupStr]
    | some r => simp
